import Mathlib

/-!
Verification of the CGP card-scanner repository.

The development shallowly embeds the three code units the checked claims
refer to:

* `ScanApp` — the scanning front end bundled with `src/src/augment-dataset.ts`
  (temporal confirmation `checkForValidHit`, the hit-history update inside
  `captureAndPredict`, and `stopScanning`).  Similarities there live on a
  0–100 percent scale and are modelled as rationals.
* `ClientApp` — `src/client/src/App.tsx` (the center-crop geometry and the
  threshold + margin decision policy of `captureAndPredict`).  Scores are
  cosine similarities on a [-1, 1] scale, modelled as rationals.
* `IdentifyCard` — `src/api/identify-card.ts` (`cosineSimilarity`,
  `findNearestCard`, the L2 normalization tail of `extractEmbedding`, and the
  success path of `handler`).  These use `Math.sqrt`, so they are modelled
  over the reals with `Real.sqrt`; JavaScript numbers are idealized as real
  numbers except where IEEE division by zero matters, which is modelled
  explicitly by `JsNum`.

JavaScript's `Array.prototype.slice(-n)` is modelled by `jsSliceLast`, and
`String.prototype.split("_")` by the structurally recursive `splitOnChar`.
-/

namespace ScanApp

/-- One frame's match result as kept in the hit history
(`interface Hit` in the scanning app); `similarity` is on the 0–100 scale. -/
structure Hit where
  cardId : String
  similarity : ℚ
deriving DecidableEq, Repr

/-- The confirmed result (`interface ScanResult`). -/
structure ScanResult where
  cardId : String
  cardName : String
  similarity : ℚ
deriving DecidableEq, Repr

/-- JavaScript `l.slice(-n)` for `n > 0`: the last `min n l.length` elements. -/
def jsSliceLast (n : ℕ) (l : List α) : List α :=
  l.drop (l.length - n)

/-- JavaScript `s.split(sep)` for a single-character separator, on the
character list of the string. -/
def splitOnChar (sep : Char) : List Char → List (List Char)
  | [] => [[]]
  | c :: rest =>
    let r := splitOnChar sep rest
    if c = sep then [] :: r
    else
      match r with
      | [] => [[c]]
      | w :: ws => (c :: w) :: ws

/-- The card-name derivation `firstCardId.split("_").slice(1).join(" ")`. -/
def cardNameOf (cardId : String) : String :=
  String.intercalate " " ((((splitOnChar '_' cardId.data).map String.mk).drop 1))

/-- Direct embedding of `checkForValidHit` from the scanning app: fires when
the last three history entries agree on the card and each similarity is
strictly above 65 (percent); the reported similarity is the mean of the
three window similarities. -/
def checkForValidHit (newHitHistory : List Hit) : Option ScanResult :=
  if newHitHistory.length < 3 then none
  else
    let lastThree := jsSliceLast 3 newHitHistory
    match lastThree with
    | [] => none
    | first :: _ =>
      let allSameCard := lastThree.all fun hit => hit.cardId == first.cardId
      if !allSameCard then none
      else
        let allAboveThreshold := lastThree.all fun hit => decide (hit.similarity > 65)
        if !allAboveThreshold then none
        else
          some { cardId := first.cardId
                 cardName := cardNameOf first.cardId
                 similarity := (lastThree.foldl (fun sum hit => sum + hit.similarity) 0) / 3 }

/-- The per-session state of the scanning app: the `isScanning` flag, whether
the capture interval timer and the camera stream are still active, the
confirmed result, and the hit history. -/
structure ScanState where
  isScanning : Bool
  intervalActive : Bool
  streamActive : Bool
  validHit : Option ScanResult
  hitHistory : List Hit
deriving DecidableEq, Repr

/-- Embedding of `stopScanning`: clears the interval timer, stops the camera
stream, and resets the scanning flag. -/
def stopScanning (s : ScanState) : ScanState :=
  { s with intervalActive := false, streamActive := false, isScanning := false }

/-- The `setHitHistory` callback inside `captureAndPredict`: appends the new
hit, checks for a valid hit (confirming and stopping the scanner if it
fires), and keeps only the last 10 hits. -/
def processNewHit (s : ScanState) (newHit : Hit) : ScanState :=
  let updated := s.hitHistory ++ [newHit]
  match checkForValidHit updated with
  | some validResult =>
    { stopScanning s with validHit := some validResult, hitHistory := jsSliceLast 10 updated }
  | none => { s with hitHistory := jsSliceLast 10 updated }

/-- One timer tick of `captureAndPredict`: a frame that aborts before an API
response (video not ready, fetch failure) leaves the state untouched;
otherwise the response hit is processed. -/
def processFrame (s : ScanState) (response : Option Hit) : ScanState :=
  match response with
  | none => s
  | some hit => processNewHit s hit

/-- The hit-history append performed by `processNewHit`, in isolation:
`[...prev, newHit].slice(-10)`. -/
def appendHit (prev : List Hit) (newHit : Hit) : List Hit :=
  jsSliceLast 10 (prev ++ [newHit])

end ScanApp

namespace ClientApp

/-- MobileNet client canvas width (`TARGET_WIDTH`). -/
def TARGET_WIDTH : ℚ := 320

/-- MobileNet client canvas height (`TARGET_HEIGHT`). -/
def TARGET_HEIGHT : ℚ := 440

/-- Card aspect ratio used for the center crop (`TARGET_ASPECT`). -/
def TARGET_ASPECT : ℚ := TARGET_WIDTH / TARGET_HEIGHT

/-- A source rectangle for `drawImage`. -/
structure CropRect where
  sx : ℚ
  sy : ℚ
  sWidth : ℚ
  sHeight : ℚ
deriving DecidableEq, Repr

/-- The center-crop computation of `captureAndPredict` in
`src/client/src/App.tsx`: given the raw video dimensions it selects the
source rectangle that is drawn onto the 320×440 canvas. -/
def cropRegion (videoWidth videoHeight : ℚ) : CropRect :=
  let videoAspect := videoWidth / videoHeight
  if videoAspect > TARGET_ASPECT then
    let sHeight := videoHeight
    let sWidth := sHeight * TARGET_ASPECT
    { sx := (videoWidth - sWidth) / 2, sy := 0, sWidth := sWidth, sHeight := sHeight }
  else
    let sWidth := videoWidth
    let sHeight := sWidth / TARGET_ASPECT
    { sx := 0, sy := (videoHeight - sHeight) / 2, sWidth := sWidth, sHeight := sHeight }

/-- Decision-policy absolute threshold (`MIN_SIMILARITY`). -/
def MIN_SIMILARITY : ℚ := 0.5

/-- Decision-policy margin threshold (`MIN_MARGIN`). -/
def MIN_MARGIN : ℚ := 0.05

/-- The best-score loop of `captureAndPredict`: `bestScore` starts at
`-Infinity` (modelled by `none`) and is improved strictly, so the earliest
maximal entry wins. -/
def findBestScore (allScores : List (String × ℚ)) : Option (String × ℚ) :=
  allScores.foldl
    (fun best s =>
      match best with
      | none => some s
      | some b => if s.2 > b.2 then some s else some b)
    none

/-- JavaScript's stable `allScores.sort((a, b) => b.score - a.score)`:
a stable sort descending by score. -/
def sortScoresDesc (allScores : List (String × ℚ)) : List (String × ℚ) :=
  List.insertionSort (fun a b => b.2 ≤ a.2) allScores

/-- `allScores.length > 1 ? allScores[1].score : -Infinity` after the sort;
`none` stands for `-Infinity`. -/
def secondBestScore (allScores : List (String × ℚ)) : Option ℚ :=
  if 1 < allScores.length then ((sortScoresDesc allScores).drop 1).head?.map Prod.snd
  else none

/-- The decision tail of `captureAndPredict`: bail out when there is no best
card (`if (!bestCardId) return`, which is also taken for an empty id since
`""` is falsy), reject when `bestScore < MIN_SIMILARITY` or
`bestScore - secondBestScore < MIN_MARGIN` (`setResult(null)`), otherwise
surface the top-1 candidate with its confidence percentage. -/
def captureDecision (allScores : List (String × ℚ)) : Option (String × ℚ) :=
  match findBestScore allScores with
  | none => none
  | some best =>
    if best.1 = "" then none
    else
      let rejected : Bool :=
        decide (best.2 < MIN_SIMILARITY) ||
          (match secondBestScore allScores with
           | some s2 => decide (best.2 - s2 < MIN_MARGIN)
           | none => false)
      if rejected then none
      else some (best.1, best.2 * 100)

end ClientApp

namespace IdentifyCard

/-- One record of the embeddings database (`interface EmbeddingData`). -/
structure EmbeddingData where
  card_id : String
  filename : String
  embedding : List ℝ

/-- The accumulator of `findNearestCard` (`bestMatch`). -/
structure BestMatch where
  cardId : String
  similarity : ℝ

/-- The dot product accumulated by the loop of `cosineSimilarity`. -/
def dotList (a b : List ℝ) : ℝ :=
  (List.zipWith (fun x y => x * y) a b).sum

/-- The squared-norm accumulator of `cosineSimilarity` (`normA` before the
square root). -/
def sumSq (a : List ℝ) : ℝ :=
  (a.map (fun x => x * x)).sum

open Classical in
/-- Embedding of `cosineSimilarity` from `src/api/identify-card.ts`: throws
on a length mismatch, returns 0 when either norm is zero, and otherwise the
dot product divided by the product of the norms. -/
noncomputable def cosineSimilarity (a b : List ℝ) : Except String ℝ :=
  if a.length ≠ b.length then Except.error "Vectors must have same length"
  else
    let normA := Real.sqrt (sumSq a)
    let normB := Real.sqrt (sumSq b)
    if normA = 0 ∨ normB = 0 then Except.ok 0
    else Except.ok (dotList a b / (normA * normB))

open Classical in
/-- The value `cosineSimilarity` computes in its non-throwing case; used to
state properties of the search loop. -/
noncomputable def cosSim (a b : List ℝ) : ℝ :=
  if Real.sqrt (sumSq a) = 0 ∨ Real.sqrt (sumSq b) = 0 then 0
  else dotList a b / (Real.sqrt (sumSq a) * Real.sqrt (sumSq b))

/-- Embedding of `findNearestCard`: a linear scan that strictly improves a
best match initialised to `{ cardId: '', similarity: -1 }`; an exception from
`cosineSimilarity` propagates. -/
noncomputable def findNearestCard (queryEmbedding : List ℝ) (entries : List EmbeddingData) :
    Except String BestMatch :=
  List.foldlM
    (fun bestMatch entry => do
      let similarity ← cosineSimilarity queryEmbedding entry.embedding
      pure (if similarity > bestMatch.similarity then
              { cardId := entry.card_id, similarity := similarity }
            else bestMatch))
    { cardId := "", similarity := -1 } entries

open Classical in
/-- The pure fold underlying `findNearestCard` once every `cosineSimilarity`
call succeeds, generalised over the initial accumulator. -/
noncomputable def findBestPure (q : List ℝ) (entries : List EmbeddingData) (init : BestMatch) :
    BestMatch :=
  entries.foldl
    (fun bestMatch entry =>
      if cosSim q entry.embedding > bestMatch.similarity then
        { cardId := entry.card_id, similarity := cosSim q entry.embedding }
      else bestMatch)
    init

/-- A JavaScript number as produced by division: a finite real, or one of the
IEEE special values NaN, +Infinity, -Infinity. -/
inductive JsNum where
  | num : ℝ → JsNum
  | nan : JsNum
  | inf : JsNum
  | ninf : JsNum

open Classical in
/-- IEEE semantics of JavaScript `x / y` at an exact zero divisor: `0/0` is
NaN and `x/0` is a signed infinity; otherwise the finite quotient. -/
noncomputable def jsDiv (x y : ℝ) : JsNum :=
  if y = 0 then
    if x = 0 then JsNum.nan
    else if 0 < x then JsNum.inf
    else JsNum.ninf
  else JsNum.num (x / y)

/-- The L2-normalization tail of `extractEmbedding`
(`embedding.map((val) => val / norm)` with `norm = Math.sqrt(Σ val²)`),
with the division modelled at IEEE precision so that a zero norm is visible. -/
noncomputable def normalizedEmbedding (embedding : List ℝ) : List JsNum :=
  let norm := Real.sqrt (sumSq embedding)
  embedding.map fun val => jsDiv val norm

/-- The success response of `handler` (`res.status(200).json({...})`). -/
structure IdentifyResponse where
  cardId : String
  cardName : String
  similarity : ℝ

/-- The success path of `handler` from the query embedding on: find the
nearest card, derive the display name, and report the similarity scaled by
100. -/
noncomputable def handler (queryEmbedding : List ℝ) (entries : List EmbeddingData) :
    Except String IdentifyResponse := do
  let m ← findNearestCard queryEmbedding entries
  pure { cardId := m.cardId
         cardName := String.intercalate " " ((m.cardId.splitOn "_").drop 1)
         similarity := m.similarity * 100 }

end IdentifyCard

/-! ## Theorems -/

namespace ScanApp

theorem jsSliceLast_length (n : ℕ) (l : List α) :
    (jsSliceLast n l).length = min n l.length := by
  simp [jsSliceLast]
  omega

theorem jsSliceLast_of_le {n : ℕ} {l : List α} (h : l.length ≤ n) :
    jsSliceLast n l = l := by
  simp [jsSliceLast, Nat.sub_eq_zero_of_le h]

theorem foldl_add_similarity (l : List Hit) :
    ∀ init : ℚ, l.foldl (fun sum hit => sum + hit.similarity) init
      = init + (l.map Hit.similarity).sum := by
  induction l with
  | nil => intro init; simp
  | cons x t ih =>
    intro init
    simp [List.foldl_cons, ih, add_assoc]

/-- Claim C1: temporal confirmation fires exactly when the hit history has at
least 3 entries, the last 3 entries all share the same card id, and each of
those 3 similarities strictly exceeds the 65 (percent) confirmation
threshold; in every other case `checkForValidHit` returns `none`. -/
theorem checkForValidHit_fires_iff (l : List Hit) :
    (checkForValidHit l).isSome = true ↔
      3 ≤ l.length ∧
      (∀ h1 ∈ jsSliceLast 3 l, ∀ h2 ∈ jsSliceLast 3 l, h1.cardId = h2.cardId) ∧
      ∀ h ∈ jsSliceLast 3 l, 65 < h.similarity := by
  unfold checkForValidHit
  by_cases hlen : l.length < 3
  · simp only [if_pos hlen, Option.isSome_none, Bool.false_eq_true, false_iff, not_and]
    intro h
    omega
  · have hge : 3 ≤ l.length := by omega
    have h3 : (jsSliceLast 3 l).length = 3 := by
      rw [jsSliceLast_length]
      omega
    rw [if_neg hlen]
    cases hw : jsSliceLast 3 l with
    | nil => rw [hw] at h3; simp at h3
    | cons first rest =>
      by_cases hsame : ∀ h ∈ first :: rest, h.cardId = first.cardId
      · have hall : ((first :: rest).all fun hit => hit.cardId == first.cardId) = true := by
          simp only [List.all_eq_true, beq_iff_eq]
          exact hsame
        by_cases hthr : ∀ h ∈ first :: rest, (65 : ℚ) < h.similarity
        · have habove : ((first :: rest).all fun hit => decide (hit.similarity > 65)) = true := by
            simp only [List.all_eq_true, decide_eq_true_iff]
            exact hthr
          simp only [hall, habove, Bool.not_true, Bool.false_eq_true, if_false,
            Option.isSome_some, true_iff]
          refine ⟨hge, ?_, hthr⟩
          intro h1 h1m h2 h2m
          rw [hsame h1 h1m, hsame h2 h2m]
        · have habove : ((first :: rest).all fun hit => decide (hit.similarity > 65)) = false := by
            simp only [List.all_eq_false, decide_eq_true_iff]
            push_neg at hthr
            obtain ⟨x, hx, hx65⟩ := hthr
            exact ⟨x, hx, by simpa using hx65⟩
          simp only [hall, habove, Bool.not_true, Bool.not_false, Bool.false_eq_true, if_false,
            if_true, Option.isSome_none, false_iff, not_and]
          intro _ _
          exact hthr
      · have hall : ((first :: rest).all fun hit => hit.cardId == first.cardId) = false := by
          simp only [List.all_eq_false, beq_iff_eq]
          push_neg at hsame
          exact hsame
        simp only [hall, Bool.not_false, if_true, Option.isSome_none, Bool.false_eq_true,
          false_iff, not_and]
        intro _ hpair
        push_neg at hsame
        obtain ⟨x, hx, hxne⟩ := hsame
        exact absurd (hpair x hx first (List.mem_cons_self first rest)) hxne

/-- Claim C2: when temporal confirmation fires on the history extended with
the new frame's hit, the emitted result carries the shared card id of the
last-3 window and a similarity equal to the arithmetic mean of the 3 window
similarities, and the scanner is halted: the capture interval is cleared,
the camera stream stopped, and the scanning flag reset. -/
theorem confirmation_mean_and_halts (s : ScanState) (newHit : Hit) (r : ScanResult)
    (hc : checkForValidHit (s.hitHistory ++ [newHit]) = some r) :
    (jsSliceLast 3 (s.hitHistory ++ [newHit])).length = 3 ∧
    (∀ h ∈ jsSliceLast 3 (s.hitHistory ++ [newHit]), h.cardId = r.cardId) ∧
    r.similarity = ((jsSliceLast 3 (s.hitHistory ++ [newHit])).map Hit.similarity).sum / 3 ∧
    (processNewHit s newHit).validHit = some r ∧
    (processNewHit s newHit).isScanning = false ∧
    (processNewHit s newHit).intervalActive = false ∧
    (processNewHit s newHit).streamActive = false := by
  have hv : (processNewHit s newHit).validHit = some r := by
    simp [processNewHit, hc]
  have hsc : (processNewHit s newHit).isScanning = false := by
    simp [processNewHit, hc, stopScanning]
  have hint : (processNewHit s newHit).intervalActive = false := by
    simp [processNewHit, hc, stopScanning]
  have hstr : (processNewHit s newHit).streamActive = false := by
    simp [processNewHit, hc, stopScanning]
  unfold checkForValidHit at hc
  set l := s.hitHistory ++ [newHit] with hl
  by_cases hlen : l.length < 3
  · rw [if_pos hlen] at hc; exact absurd hc (by simp)
  · rw [if_neg hlen] at hc
    have h3 : (jsSliceLast 3 l).length = 3 := by
      rw [jsSliceLast_length]; omega
    cases hw : jsSliceLast 3 l with
    | nil => rw [hw] at h3; simp at h3
    | cons first rest =>
      rw [hw] at hc
      dsimp only at hc
      by_cases hall : ((first :: rest).all fun hit => hit.cardId == first.cardId) = true
      · rw [hall] at hc
        by_cases habove : ((first :: rest).all fun hit => decide (hit.similarity > 65)) = true
        · rw [habove] at hc
          simp only [Bool.not_true, Bool.false_eq_true, if_false, Option.some.injEq] at hc
          subst hc
          simp only [List.all_eq_true, beq_iff_eq] at hall
          rw [hw] at h3
          refine ⟨h3, ?_, ?_, hv, hsc, hint, hstr⟩
          · intro h hm
            exact hall h hm
          · simp only [foldl_add_similarity, zero_add]
        · rw [Bool.not_eq_true] at habove
          rw [habove] at hc
          simp at hc
      · rw [Bool.not_eq_true] at hall
        rw [hall] at hc
        simp at hc

theorem appendHit_slice (l : List Hit) (h : Hit) :
    appendHit (jsSliceLast 10 l) h = jsSliceLast 10 (l ++ [h]) := by
  unfold appendHit
  by_cases hl : l.length ≤ 10
  · rw [jsSliceLast_of_le hl]
  · have hx : (jsSliceLast 10 l).length = 10 := by
      rw [jsSliceLast_length]; omega
    unfold jsSliceLast
    rw [List.length_append, List.length_append]
    have hxl : (l.drop (l.length - 10)).length = 10 := by
      simpa [jsSliceLast] using hx
    rw [hxl]
    have h1 : (10 : ℕ) + [h].length - 10 = 1 := by simp
    have h2 : l.length + [h].length - 10 = l.length - 9 := by
      simp only [List.length_cons, List.length_nil]
      omega
    rw [h1, h2]
    rw [List.drop_append_of_le_length (by omega : 1 ≤ (l.drop (l.length - 10)).length),
      List.drop_append_of_le_length (by omega : l.length - 9 ≤ l.length)]
    rw [List.drop_drop]
    have harith : l.length - 10 + 1 = l.length - 9 := by omega
    rw [harith]

theorem foldl_appendHit (hits : List Hit) :
    ∀ l : List Hit, List.foldl appendHit (jsSliceLast 10 l) hits = jsSliceLast 10 (l ++ hits) := by
  induction hits with
  | nil => intro l; simp
  | cons h t ih =>
    intro l
    rw [List.foldl_cons, appendHit_slice, ih (l ++ [h])]
    simp

/-- Claim C6: the hit history is bounded by capacity 10: each append keeps
the length at most 10 (exactly `min (len + 1) 10`), appends the newest entry
at the end, evicts only the oldest entry once full, and appending 11 hits to
an initially empty history leaves exactly the last 10, the oldest gone. -/
theorem hitHistory_bounded_fifo (prev : List Hit) (newHit : Hit) (hits : List Hit)
    (hprev : prev.length ≤ 10) (hhits : hits.length = 11) :
    (appendHit prev newHit).length ≤ 10 ∧
    (appendHit prev newHit).length = min (prev.length + 1) 10 ∧
    (prev.length < 10 → appendHit prev newHit = prev ++ [newHit]) ∧
    (prev.length = 10 → appendHit prev newHit = prev.drop 1 ++ [newHit]) ∧
    List.foldl appendHit [] hits = hits.drop 1 ∧
    (List.foldl appendHit [] hits).length = 10 := by
  have hfold : List.foldl appendHit [] hits = hits.drop 1 := by
    have := foldl_appendHit hits []
    simp only [jsSliceLast, List.length_nil, Nat.zero_sub, List.drop_zero,
      List.nil_append] at this
    rw [this, hhits]
  refine ⟨?_, ?_, ?_, ?_, hfold, ?_⟩
  · unfold appendHit
    rw [jsSliceLast_length]
    omega
  · unfold appendHit
    rw [jsSliceLast_length]
    simp only [List.length_append, List.length_cons, List.length_nil]
    omega
  · intro hlt
    unfold appendHit
    apply jsSliceLast_of_le
    simp only [List.length_append, List.length_cons, List.length_nil]
    omega
  · intro heq
    unfold appendHit jsSliceLast
    simp only [List.length_append, List.length_cons, List.length_nil, heq]
    rw [List.drop_append_of_le_length (by omega : 10 + 1 - 10 ≤ prev.length)]
  · rw [hfold]
    simp [hhits]

/-- Amended claim C7: every frame whose API call completes appends its hit to
the history unconditionally (the scanning app applies no decision-policy
filter before appending, so below-threshold entries do enter the history and
are only filtered by the 65-percent window check at confirmation time),
while a frame that aborts before a response leaves the state unchanged. -/
theorem frame_always_appends (s : ScanState) (newHit : Hit) :
    (processNewHit s newHit).hitHistory = jsSliceLast 10 (s.hitHistory ++ [newHit]) ∧
    processFrame s none = s := by
  constructor
  · unfold processNewHit
    cases hcv : checkForValidHit (s.hitHistory ++ [newHit]) <;> simp [hcv]
  · rfl

/-- Counterexample to claim C7 as stated: a frame whose similarity (10
percent) is far below both the decision-policy threshold (50 percent) and
the confirmation threshold (65 percent) is nevertheless appended to the hit
history. -/
theorem below_threshold_hit_in_history :
    (processNewHit ⟨true, true, true, none, []⟩ ⟨"card_A", 10⟩).hitHistory
      = [⟨"card_A", 10⟩] ∧
    (10 : ℚ) < 50 ∧ (10 : ℚ) < 65 := by
  refine ⟨?_, by norm_num, by norm_num⟩
  simp [processNewHit, checkForValidHit, jsSliceLast]

end ScanApp

namespace ScanApp

theorem confirmation_mean_and_halts_witness :
    checkForValidHit ([⟨"card_A", 70⟩, ⟨"card_A", 68⟩] ++ [⟨"card_A", 90⟩])
      = some ⟨"card_A", "A", 76⟩ ∧
    ((jsSliceLast 3 ([(⟨"card_A", 70⟩ : Hit), ⟨"card_A", 68⟩] ++ [⟨"card_A", 90⟩])).map
        Hit.similarity).sum / 3 = (76 : ℚ) ∧
    (processNewHit ⟨true, true, true, none, [⟨"card_A", 70⟩, ⟨"card_A", 68⟩]⟩
        ⟨"card_A", 90⟩).validHit = some ⟨"card_A", "A", 76⟩ ∧
    (processNewHit ⟨true, true, true, none, [⟨"card_A", 70⟩, ⟨"card_A", 68⟩]⟩
        ⟨"card_A", 90⟩).isScanning = false ∧
    (processNewHit ⟨true, true, true, none, [⟨"card_A", 70⟩, ⟨"card_A", 68⟩]⟩
        ⟨"card_A", 90⟩).intervalActive = false ∧
    (processNewHit ⟨true, true, true, none, [⟨"card_A", 70⟩, ⟨"card_A", 68⟩]⟩
        ⟨"card_A", 90⟩).streamActive = false := by
  have hc : checkForValidHit ([⟨"card_A", 70⟩, ⟨"card_A", 68⟩] ++ [⟨"card_A", 90⟩])
      = some ⟨"card_A", "A", 76⟩ := by
    simp [checkForValidHit, jsSliceLast, cardNameOf, splitOnChar, String.intercalate,
      String.intercalate.go]
    norm_num
  have main := confirmation_mean_and_halts
    ⟨true, true, true, none, [⟨"card_A", 70⟩, ⟨"card_A", 68⟩]⟩ ⟨"card_A", 90⟩
    ⟨"card_A", "A", 76⟩ hc
  refine ⟨hc, ?_, main.2.2.2.1, main.2.2.2.2.1, main.2.2.2.2.2.1, main.2.2.2.2.2.2⟩
  rw [← main.2.2.1]

theorem hitHistory_bounded_fifo_witness :
    (appendHit [⟨"a", 1⟩, ⟨"a", 2⟩, ⟨"a", 3⟩, ⟨"a", 4⟩, ⟨"a", 5⟩, ⟨"a", 6⟩, ⟨"a", 7⟩,
        ⟨"a", 8⟩, ⟨"a", 9⟩, ⟨"a", 10⟩] ⟨"b", 11⟩).length ≤ 10 ∧
    (appendHit [⟨"a", 1⟩, ⟨"a", 2⟩, ⟨"a", 3⟩, ⟨"a", 4⟩, ⟨"a", 5⟩, ⟨"a", 6⟩, ⟨"a", 7⟩,
        ⟨"a", 8⟩, ⟨"a", 9⟩, ⟨"a", 10⟩] ⟨"b", 11⟩).length
      = min ([(⟨"a", 1⟩ : Hit), ⟨"a", 2⟩, ⟨"a", 3⟩, ⟨"a", 4⟩, ⟨"a", 5⟩, ⟨"a", 6⟩, ⟨"a", 7⟩,
        ⟨"a", 8⟩, ⟨"a", 9⟩, ⟨"a", 10⟩].length + 1) 10 ∧
    appendHit [⟨"a", 1⟩, ⟨"a", 2⟩, ⟨"a", 3⟩, ⟨"a", 4⟩, ⟨"a", 5⟩, ⟨"a", 6⟩, ⟨"a", 7⟩,
        ⟨"a", 8⟩, ⟨"a", 9⟩, ⟨"a", 10⟩] ⟨"b", 11⟩
      = [(⟨"a", 1⟩ : Hit), ⟨"a", 2⟩, ⟨"a", 3⟩, ⟨"a", 4⟩, ⟨"a", 5⟩, ⟨"a", 6⟩, ⟨"a", 7⟩,
        ⟨"a", 8⟩, ⟨"a", 9⟩, ⟨"a", 10⟩].drop 1 ++ [⟨"b", 11⟩] ∧
    List.foldl appendHit []
      [⟨"c", 1⟩, ⟨"c", 2⟩, ⟨"c", 3⟩, ⟨"c", 4⟩, ⟨"c", 5⟩, ⟨"c", 6⟩, ⟨"c", 7⟩,
        ⟨"c", 8⟩, ⟨"c", 9⟩, ⟨"c", 10⟩, ⟨"c", 11⟩]
      = [(⟨"c", 1⟩ : Hit), ⟨"c", 2⟩, ⟨"c", 3⟩, ⟨"c", 4⟩, ⟨"c", 5⟩, ⟨"c", 6⟩, ⟨"c", 7⟩,
        ⟨"c", 8⟩, ⟨"c", 9⟩, ⟨"c", 10⟩, ⟨"c", 11⟩].drop 1 ∧
    (List.foldl appendHit []
      [⟨"c", 1⟩, ⟨"c", 2⟩, ⟨"c", 3⟩, ⟨"c", 4⟩, ⟨"c", 5⟩, ⟨"c", 6⟩, ⟨"c", 7⟩,
        ⟨"c", 8⟩, ⟨"c", 9⟩, ⟨"c", 10⟩, ⟨"c", 11⟩]).length = 10 := by
  have H := hitHistory_bounded_fifo
    [⟨"a", 1⟩, ⟨"a", 2⟩, ⟨"a", 3⟩, ⟨"a", 4⟩, ⟨"a", 5⟩, ⟨"a", 6⟩, ⟨"a", 7⟩,
      ⟨"a", 8⟩, ⟨"a", 9⟩, ⟨"a", 10⟩] ⟨"b", 11⟩
    [⟨"c", 1⟩, ⟨"c", 2⟩, ⟨"c", 3⟩, ⟨"c", 4⟩, ⟨"c", 5⟩, ⟨"c", 6⟩, ⟨"c", 7⟩,
      ⟨"c", 8⟩, ⟨"c", 9⟩, ⟨"c", 10⟩, ⟨"c", 11⟩]
    (by decide) (by decide)
  exact ⟨H.1, H.2.1, H.2.2.2.1 (by decide), H.2.2.2.2.1, H.2.2.2.2.2⟩

end ScanApp

namespace ClientApp

/-- Claim C8: the crop is centered: when the source is wider than the target
aspect the crop spans the full source height and the left margin equals the
right margin exactly; when the source is relatively taller the crop spans the
full source width and the top margin equals the bottom margin exactly; in
both cases the source rectangle has exactly the target aspect ratio, so the
resize onto the 320×440 canvas does not stretch. -/
theorem center_crop_centered (w h : ℚ) (hw : 0 < w) (hh : 0 < h) :
    (TARGET_ASPECT < w / h →
      (cropRegion w h).sy = 0 ∧
      (cropRegion w h).sHeight = h ∧
      (cropRegion w h).sx = w - ((cropRegion w h).sx + (cropRegion w h).sWidth) ∧
      (cropRegion w h).sWidth / (cropRegion w h).sHeight = TARGET_ASPECT) ∧
    (w / h ≤ TARGET_ASPECT →
      (cropRegion w h).sx = 0 ∧
      (cropRegion w h).sWidth = w ∧
      (cropRegion w h).sy = h - ((cropRegion w h).sy + (cropRegion w h).sHeight) ∧
      (cropRegion w h).sWidth / (cropRegion w h).sHeight = TARGET_ASPECT) := by
  have hTA : TARGET_ASPECT ≠ 0 := by
    norm_num [TARGET_ASPECT, TARGET_WIDTH, TARGET_HEIGHT]
  unfold cropRegion
  dsimp only
  constructor
  · intro hgt
    rw [if_pos (show w / h > TARGET_ASPECT from hgt)]
    refine ⟨rfl, rfl, by dsimp only; ring, ?_⟩
    dsimp only
    rw [mul_comm, mul_div_assoc, div_self hh.ne', mul_one]
  · intro hle
    rw [if_neg (show ¬w / h > TARGET_ASPECT from not_lt.mpr hle)]
    refine ⟨rfl, rfl, by dsimp only; ring, ?_⟩
    dsimp only
    rw [div_div_eq_mul_div, mul_comm, mul_div_assoc, div_self hw.ne', mul_one]

theorem center_crop_centered_witness :
    (cropRegion 1000 500).sy = 0 ∧
    (cropRegion 1000 500).sHeight = 500 ∧
    (cropRegion 1000 500).sx
      = 1000 - ((cropRegion 1000 500).sx + (cropRegion 1000 500).sWidth) ∧
    (cropRegion 1000 500).sWidth / (cropRegion 1000 500).sHeight = TARGET_ASPECT :=
  (center_crop_centered 1000 500 (by norm_num) (by norm_num)).1
    (by norm_num [TARGET_ASPECT, TARGET_WIDTH, TARGET_HEIGHT])

/-- Claim C3: the threshold + margin decision policy accepts the frame's
top-1 candidate exactly when its similarity is at least `MIN_SIMILARITY`
(0.5) and the margin over the runner-up is at least `MIN_MARGIN` (0.05); in
particular any frame with margin below 0.05 is rejected (`setResult(null)`)
no matter how high the top score is, and an accepted result is always the
top-1 candidate scaled to a percentage. -/
theorem decision_policy_iff (allScores : List (String × ℚ)) (best : String × ℚ) (s2 : ℚ)
    (hbest : findBestScore allScores = some best)
    (hid : best.1 ≠ "")
    (hs2 : secondBestScore allScores = some s2) :
    ((captureDecision allScores).isSome = true ↔
      MIN_SIMILARITY ≤ best.2 ∧ MIN_MARGIN ≤ best.2 - s2) ∧
    (best.2 - s2 < MIN_MARGIN → captureDecision allScores = none) ∧
    ∀ accepted, captureDecision allScores = some accepted →
      accepted = (best.1, best.2 * 100) := by
  unfold captureDecision
  rw [hbest, hs2]
  dsimp only
  rw [if_neg hid]
  by_cases h1 : best.2 < MIN_SIMILARITY
  · have hd1 : decide (best.2 < MIN_SIMILARITY) = true := decide_eq_true h1
    rw [hd1, Bool.true_or, if_pos rfl]
    refine ⟨?_, fun _ => rfl, fun accepted hacc => absurd hacc (by simp)⟩
    simp only [Option.isSome_none, Bool.false_eq_true, false_iff]
    intro hand
    exact absurd h1 (not_lt.mpr hand.1)
  · have hd1 : decide (best.2 < MIN_SIMILARITY) = false := decide_eq_false h1
    rw [hd1, Bool.false_or]
    by_cases h2 : best.2 - s2 < MIN_MARGIN
    · have hd2 : decide (best.2 - s2 < MIN_MARGIN) = true := decide_eq_true h2
      rw [hd2, if_pos rfl]
      refine ⟨?_, fun _ => rfl, fun accepted hacc => absurd hacc (by simp)⟩
      simp only [Option.isSome_none, Bool.false_eq_true, false_iff]
      intro hand
      exact absurd h2 (not_lt.mpr hand.2)
    · have hd2 : decide (best.2 - s2 < MIN_MARGIN) = false := decide_eq_false h2
      rw [hd2, if_neg (by simp : ¬((false : Bool) = true))]
      refine ⟨?_, fun habs => absurd habs h2, fun accepted hacc => ?_⟩
      · simp only [Option.isSome_some, true_iff]
        exact ⟨not_lt.mp h1, not_lt.mp h2⟩
      · exact ((Option.some.injEq _ _).mp hacc).symm

theorem decision_policy_iff_witness :
    (captureDecision [("card_A", 9/10), ("card_B", 1/2)]).isSome = true := by
  have H := decision_policy_iff [("card_A", 9/10), ("card_B", 1/2)] ("card_A", 9/10) (1/2)
    (by norm_num [findBestScore])
    (by simp)
    (by norm_num [secondBestScore, sortScoresDesc, List.insertionSort, List.orderedInsert])
  exact H.1.mpr ⟨by norm_num [MIN_SIMILARITY], by norm_num [MIN_MARGIN]⟩

end ClientApp

namespace IdentifyCard

theorem sumSq_nonneg (a : List ℝ) : 0 ≤ sumSq a := by
  unfold sumSq
  apply List.sum_nonneg
  intro x hx
  obtain ⟨y, _, rfl⟩ := List.mem_map.mp hx
  exact mul_self_nonneg y

theorem dotList_eq_sum (a : List ℝ) :
    ∀ b : List ℝ, a.length = b.length →
      dotList a b = ∑ i ∈ Finset.range a.length, a.getD i 0 * b.getD i 0 := by
  induction a with
  | nil => intro b h; simp [dotList]
  | cons x a ih =>
    intro b h
    cases b with
    | nil => simp at h
    | cons y b =>
      have h' : a.length = b.length := by
        simpa using h
      simp only [dotList, List.zipWith_cons_cons, List.sum_cons, List.length_cons]
      rw [Finset.sum_range_succ']
      simp only [List.getD_cons_succ, List.getD_cons_zero]
      rw [show (List.zipWith (fun x y => x * y) a b).sum = dotList a b from rfl, ih b h']
      ring

theorem sumSq_eq_sum (a : List ℝ) :
    sumSq a = ∑ i ∈ Finset.range a.length, a.getD i 0 ^ 2 := by
  induction a with
  | nil => simp [sumSq]
  | cons x a ih =>
    simp only [sumSq, List.map_cons, List.sum_cons, List.length_cons]
    rw [Finset.sum_range_succ']
    simp only [List.getD_cons_succ, List.getD_cons_zero]
    rw [show (List.map (fun x => x * x) a).sum = sumSq a from rfl, ih]
    ring

theorem dotList_le_sqrt (a b : List ℝ) (h : a.length = b.length) :
    dotList a b ≤ Real.sqrt (sumSq a) * Real.sqrt (sumSq b) := by
  rw [dotList_eq_sum a b h, sumSq_eq_sum a, sumSq_eq_sum b, ← h]
  exact Real.sum_mul_le_sqrt_mul_sqrt _ _ _

theorem map_neg_length (a : List ℝ) : (a.map fun x => -x).length = a.length :=
  List.length_map a _

theorem dotList_map_neg (a : List ℝ) :
    ∀ b : List ℝ, dotList (a.map fun x => -x) b = -dotList a b := by
  induction a with
  | nil => intro b; simp [dotList]
  | cons x a ih =>
    intro b
    cases b with
    | nil => simp [dotList]
    | cons y b =>
      simp only [List.map_cons, dotList, List.zipWith_cons_cons, List.sum_cons]
      rw [show (List.zipWith (fun x y => x * y) (a.map fun x => -x) b).sum
          = dotList (a.map fun x => -x) b from rfl, ih b]
      unfold dotList
      ring

theorem sumSq_map_neg (a : List ℝ) : sumSq (a.map fun x => -x) = sumSq a := by
  induction a with
  | nil => rfl
  | cons x a ih =>
    simp only [List.map_cons, sumSq, List.sum_cons]
    rw [show (List.map (fun x => x * x) (a.map fun x => -x)).sum
        = sumSq (a.map fun x => -x) from rfl, ih]
    unfold sumSq
    ring

theorem abs_dotList_le (a b : List ℝ) (h : a.length = b.length) :
    |dotList a b| ≤ Real.sqrt (sumSq a) * Real.sqrt (sumSq b) := by
  rw [abs_le]
  constructor
  · have hneg := dotList_le_sqrt (a.map fun x => -x) b
      (by rw [map_neg_length]; exact h)
    rw [dotList_map_neg, sumSq_map_neg] at hneg
    linarith
  · exact dotList_le_sqrt a b h

theorem cosineSimilarity_ok (a b : List ℝ) (h : a.length = b.length) :
    cosineSimilarity a b = Except.ok (cosSim a b) := by
  unfold cosineSimilarity cosSim
  rw [if_neg (fun hne => hne h)]
  dsimp only
  split_ifs <;> rfl

theorem abs_cosSim_le_one (a b : List ℝ) (h : a.length = b.length) :
    |cosSim a b| ≤ 1 := by
  unfold cosSim
  split_ifs with hz
  · simp
  · push_neg at hz
    have hA : 0 < Real.sqrt (sumSq a) := (Real.sqrt_nonneg _).lt_of_ne (Ne.symm hz.1)
    have hB : 0 < Real.sqrt (sumSq b) := (Real.sqrt_nonneg _).lt_of_ne (Ne.symm hz.2)
    rw [abs_div, abs_of_pos (mul_pos hA hB), div_le_one (mul_pos hA hB)]
    exact abs_dotList_le a b h

theorem findNearestCard_from (q : List ℝ) :
    ∀ (entries : List EmbeddingData) (init : BestMatch),
      (∀ e ∈ entries, e.embedding.length = q.length) →
      List.foldlM
        (fun bestMatch entry => do
          let similarity ← cosineSimilarity q entry.embedding
          pure (if similarity > bestMatch.similarity then
                  { cardId := entry.card_id, similarity := similarity }
                else bestMatch))
        init entries = Except.ok (findBestPure q entries init) := by
  intro entries
  induction entries with
  | nil => intro init _; rfl
  | cons e t ih =>
    intro init h
    have he : q.length = e.embedding.length := (h e (List.mem_cons_self e t)).symm
    have ht : ∀ e2 ∈ t, e2.embedding.length = q.length :=
      fun e2 he2 => h e2 (List.mem_cons_of_mem e he2)
    rw [List.foldlM_cons]
    rw [cosineSimilarity_ok q e.embedding he]
    show List.foldlM _
        (if cosSim q e.embedding > init.similarity then
          { cardId := e.card_id, similarity := cosSim q e.embedding } else init) t
      = Except.ok (findBestPure q (e :: t) init)
    rw [ih _ ht]
    rfl

theorem findNearestCard_eq (q : List ℝ) (entries : List EmbeddingData)
    (hlen : ∀ e ∈ entries, e.embedding.length = q.length) :
    findNearestCard q entries
      = Except.ok (findBestPure q entries { cardId := "", similarity := -1 }) := by
  unfold findNearestCard
  exact findNearestCard_from q entries _ hlen

theorem findBestPure_spec (q : List ℝ) :
    ∀ (entries : List EmbeddingData) (init : BestMatch),
      (findBestPure q entries init = init ∧
        ∀ e ∈ entries, cosSim q e.embedding ≤ init.similarity) ∨
      (∃ pre cur post, entries = pre ++ cur :: post ∧
        findBestPure q entries init
          = { cardId := cur.card_id, similarity := cosSim q cur.embedding } ∧
        init.similarity < cosSim q cur.embedding ∧
        (∀ e ∈ pre, cosSim q e.embedding < cosSim q cur.embedding) ∧
        (∀ e ∈ entries, cosSim q e.embedding ≤ cosSim q cur.embedding)) := by
  intro entries
  induction entries with
  | nil =>
    intro init
    left
    exact ⟨rfl, by simp⟩
  | cons e t ih =>
    intro init
    by_cases hgt : cosSim q e.embedding > init.similarity
    · have hstep : findBestPure q (e :: t) init
          = findBestPure q t { cardId := e.card_id, similarity := cosSim q e.embedding } := by
        unfold findBestPure
        simp only [List.foldl_cons]
        rw [if_pos hgt]
      rcases ih { cardId := e.card_id, similarity := cosSim q e.embedding } with
        ⟨heq, hle⟩ | ⟨pre, cur, post, hsplit, heq, hlt, hpre, hmax⟩
      · right
        refine ⟨[], e, t, rfl, ?_, hgt, by simp, ?_⟩
        · rw [hstep, heq]
        · intro e2 he2
          rcases List.mem_cons.mp he2 with rfl | hmem
          · exact le_refl _
          · exact hle e2 hmem
      · right
        refine ⟨e :: pre, cur, post, by rw [hsplit, List.cons_append], by rw [hstep, heq],
          lt_trans hgt hlt, ?_, ?_⟩
        · intro e2 he2
          rcases List.mem_cons.mp he2 with rfl | hmem
          · exact hlt
          · exact hpre e2 hmem
        · intro e2 he2
          rcases List.mem_cons.mp he2 with rfl | hmem
          · exact le_of_lt hlt
          · exact hmax e2 hmem
    · have hstep : findBestPure q (e :: t) init = findBestPure q t init := by
        unfold findBestPure
        simp only [List.foldl_cons]
        rw [if_neg hgt]
      have hle_e : cosSim q e.embedding ≤ init.similarity := not_lt.mp hgt
      rcases ih init with ⟨heq, hle⟩ | ⟨pre, cur, post, hsplit, heq, hlt, hpre, hmax⟩
      · left
        refine ⟨by rw [hstep, heq], ?_⟩
        intro e2 he2
        rcases List.mem_cons.mp he2 with rfl | hmem
        · exact hle_e
        · exact hle e2 hmem
      · right
        refine ⟨e :: pre, cur, post, by rw [hsplit, List.cons_append], by rw [hstep, heq], hlt,
          ?_, ?_⟩
        · intro e2 he2
          rcases List.mem_cons.mp he2 with rfl | hmem
          · exact lt_of_le_of_lt hle_e hlt
          · exact hpre e2 hmem
        · intro e2 he2
          rcases List.mem_cons.mp he2 with rfl | hmem
          · exact le_of_lt (lt_of_le_of_lt hle_e hlt)
          · exact hmax e2 hmem

end IdentifyCard

namespace IdentifyCard

/-- Claim C10: `cosineSimilarity` is total on equal-length vectors: it always
returns a value (never throws, and in this real-valued model never a NaN);
when either input has zero Euclidean norm the value is exactly 0, and for
inputs with nonzero norms it is the dot product divided by the product of
the two norms. -/
theorem cosineSimilarity_total (a b : List ℝ) (hlen : a.length = b.length) :
    ∃ r, cosineSimilarity a b = Except.ok r ∧
      ((Real.sqrt (sumSq a) = 0 ∨ Real.sqrt (sumSq b) = 0) → r = 0) ∧
      (Real.sqrt (sumSq a) ≠ 0 → Real.sqrt (sumSq b) ≠ 0 →
        r = dotList a b / (Real.sqrt (sumSq a) * Real.sqrt (sumSq b))) := by
  refine ⟨cosSim a b, cosineSimilarity_ok a b hlen, ?_, ?_⟩
  · intro hz
    unfold cosSim
    rw [if_pos hz]
  · intro hA hB
    unfold cosSim
    rw [if_neg (by tauto)]

theorem cosineSimilarity_total_witness :
    cosineSimilarity [(0 : ℝ), 0] [(3 : ℝ), 4] = Except.ok 0 := by
  obtain ⟨r, hok, hz, _⟩ := cosineSimilarity_total [(0 : ℝ), 0] [(3 : ℝ), 4] rfl
  have h0 : sumSq [(0 : ℝ), 0] = 0 := by norm_num [sumSq]
  rw [hz (Or.inl (by rw [h0, Real.sqrt_zero]))] at hok
  exact hok

theorem cosSim_one_negone : cosSim [(1 : ℝ)] [(-1 : ℝ)] = -1 := by
  have hA : sumSq [(1 : ℝ)] = 1 := by norm_num [sumSq]
  have hB : sumSq [(-1 : ℝ)] = 1 := by norm_num [sumSq]
  unfold cosSim
  rw [hA, hB, Real.sqrt_one]
  rw [if_neg (by norm_num)]
  norm_num [dotList]

theorem cosSim_one_one : cosSim [(1 : ℝ)] [(1 : ℝ)] = 1 := by
  have hA : sumSq [(1 : ℝ)] = 1 := by norm_num [sumSq]
  unfold cosSim
  rw [hA, Real.sqrt_one]
  rw [if_neg (by norm_num)]
  norm_num [dotList]

theorem findNearestCard_single_neg :
    findNearestCard [(1 : ℝ)] [⟨"card_A", "a.png", [(-1 : ℝ)]⟩]
      = Except.ok { cardId := "", similarity := -1 } := by
  have h := findNearestCard_eq [(1 : ℝ)] [⟨"card_A", "a.png", [(-1 : ℝ)]⟩]
    (by intro e he; rw [List.mem_singleton] at he; subst he; rfl)
  rw [h]
  unfold findBestPure
  simp only [List.foldl_cons, List.foldl_nil, cosSim_one_negone]
  rw [if_neg (by norm_num)]

/-- Counterexample to claim C4 as stated: on the one-entry catalog whose
embedding is exactly opposite to the query, the cosine similarity is -1,
which never beats the `-1` sentinel the loop starts from, so
`findNearestCard` returns the sentinel `{ cardId: '', similarity: -1 }`
instead of the maximal entry's card id `"card_A"`. -/
theorem findNearestCard_sentinel_counterexample :
    findNearestCard [(1 : ℝ)] [⟨"card_A", "a.png", [(-1 : ℝ)]⟩]
      = Except.ok { cardId := "", similarity := -1 } ∧
    ("" : String) ≠ "card_A" :=
  ⟨findNearestCard_single_neg, by simp⟩

/-- Amended claim C4: on a catalog whose entries match the query dimension
and in which at least one entry scores strictly above -1, `findNearestCard`
returns the card id and similarity of the entry with maximum cosine
similarity, ties broken in favor of the earliest entry in catalog order
(every earlier entry scores strictly less), and the returned similarity is
in particular the maximum over the entries sharing the returned card id.
Repeated calls are identical because the search is a pure function of its
arguments. -/
theorem findNearestCard_max (q : List ℝ) (entries : List EmbeddingData)
    (hlen : ∀ e ∈ entries, e.embedding.length = q.length)
    (hex : ∃ e ∈ entries, -1 < cosSim q e.embedding) :
    ∃ pre cur post,
      entries = pre ++ cur :: post ∧
      findNearestCard q entries
        = Except.ok { cardId := cur.card_id, similarity := cosSim q cur.embedding } ∧
      (∀ e ∈ entries, cosSim q e.embedding ≤ cosSim q cur.embedding) ∧
      (∀ e ∈ pre, cosSim q e.embedding < cosSim q cur.embedding) ∧
      (∀ e ∈ entries, e.card_id = cur.card_id →
        cosSim q e.embedding ≤ cosSim q cur.embedding) := by
  have hok := findNearestCard_eq q entries hlen
  rcases findBestPure_spec q entries { cardId := "", similarity := -1 } with
    ⟨_, hle⟩ | ⟨pre, cur, post, hsplit, heq, _, hpre, hmax⟩
  · obtain ⟨e, he, hgt⟩ := hex
    exact absurd (hle e he) (not_le.mpr hgt)
  · exact ⟨pre, cur, post, hsplit, by rw [hok, heq], hmax, hpre,
      fun e he _ => hmax e he⟩

theorem findNearestCard_max_witness :
    findNearestCard [(1 : ℝ)] [⟨"card_A", "a.png", [(1 : ℝ)]⟩]
      = Except.ok { cardId := "card_A", similarity := cosSim [(1 : ℝ)] [(1 : ℝ)] } := by
  obtain ⟨pre, cur, post, hsplit, hok, -, -, -⟩ :=
    findNearestCard_max [(1 : ℝ)] [⟨"card_A", "a.png", [(1 : ℝ)]⟩]
      (by intro e he; rw [List.mem_singleton] at he; subst he; rfl)
      ⟨⟨"card_A", "a.png", [(1 : ℝ)]⟩, List.mem_singleton.mpr rfl,
        by rw [cosSim_one_one]; norm_num⟩
  cases pre with
  | nil =>
    rw [List.nil_append] at hsplit
    have hcur : cur = ⟨"card_A", "a.png", [(1 : ℝ)]⟩ := (List.cons.injEq _ _ _ _).mp hsplit.symm |>.1
    subst hcur
    exact hok
  | cons a l =>
    rw [List.cons_append] at hsplit
    have h0 : l ++ cur :: post = [] := (List.cons.injEq _ _ _ _).mp hsplit.symm |>.2
    exact absurd h0 (List.append_ne_nil_of_right_ne_nil l (List.cons_ne_nil cur post))

/-- Claim C5 (the code contradicts it): the L2 normalization inside
`extractEmbedding` divides every component by the norm without any zero
check, so a raw embedding with exactly zero L2 norm is mapped to a vector of
IEEE NaN values (0/0 per component), which is then passed downstream to the
similarity computation rather than being rejected or replaced by the zero
vector. -/
theorem zero_norm_embedding_nan :
    Real.sqrt (sumSq [(0 : ℝ), 0]) = 0 ∧
    normalizedEmbedding [(0 : ℝ), 0] = [JsNum.nan, JsNum.nan] := by
  have h0 : sumSq [(0 : ℝ), 0] = 0 := by norm_num [sumSq]
  constructor
  · rw [h0, Real.sqrt_zero]
  · unfold normalizedEmbedding
    rw [h0, Real.sqrt_zero]
    simp [jsDiv]

end IdentifyCard

namespace IdentifyCard

/-- Counterexample to claim C9 as stated: the response similarity is not
confined to the 0–100 range: for a query embedding exactly opposite to the
only catalog entry the handler reports -100. -/
theorem handler_negative_similarity :
    Except.map IdentifyResponse.similarity
      (handler [(1 : ℝ)] [⟨"card_A", "a.png", [(-1 : ℝ)]⟩]) = Except.ok (-100) ∧
    ((-100 : ℝ) < 0) := by
  constructor
  · unfold handler
    rw [findNearestCard_single_neg]
    show Except.ok ((-1 : ℝ) * 100) = Except.ok (-100)
    norm_num
  · norm_num

/-- Amended claim C9: every successful response reports 100 times the best
(maximal) cosine similarity between the query embedding and the catalog
entries, and this value lies within -100 to 100 (cosine similarity lies in
[-1, 1]); the lower end of the claimed 0–100 range is not enforced by the
code. -/
theorem handler_scale (q : List ℝ) (entries : List EmbeddingData)
    (hlen : ∀ e ∈ entries, e.embedding.length = q.length)
    (hne : entries ≠ []) :
    ∃ resp, handler q entries = Except.ok resp ∧
      (∃ e ∈ entries, resp.similarity = 100 * cosSim q e.embedding ∧
        ∀ e2 ∈ entries, cosSim q e2.embedding ≤ cosSim q e.embedding) ∧
      -100 ≤ resp.similarity ∧ resp.similarity ≤ 100 := by
  have hok := findNearestCard_eq q entries hlen
  set m := findBestPure q entries { cardId := "", similarity := -1 } with hm
  have hresp : handler q entries = Except.ok
      { cardId := m.cardId,
        cardName := String.intercalate " " ((m.cardId.splitOn "_").drop 1),
        similarity := m.similarity * 100 } := by
    unfold handler
    rw [hok]
    rfl
  have hchar : ∃ e ∈ entries, m.similarity = cosSim q e.embedding ∧
      ∀ e2 ∈ entries, cosSim q e2.embedding ≤ cosSim q e.embedding := by
    rcases findBestPure_spec q entries { cardId := "", similarity := -1 } with
      ⟨heq, hle⟩ | ⟨pre, cur, post, hsplit, heq, _, _, hmax⟩
    · obtain ⟨e0, he0⟩ : ∃ e0, e0 ∈ entries := by
        cases entries with
        | nil => exact absurd rfl hne
        | cons x t => exact ⟨x, List.mem_cons_self x t⟩
      have hbound : -1 ≤ cosSim q e0.embedding := by
        have habs := abs_le.mp (abs_cosSim_le_one q e0.embedding (hlen e0 he0).symm)
        linarith [habs.1]
      have he0v : cosSim q e0.embedding = -1 := le_antisymm (hle e0 he0) hbound
      refine ⟨e0, he0, ?_, ?_⟩
      · rw [hm, heq, he0v]
      · intro e2 he2
        rw [he0v]
        exact hle e2 he2
    · refine ⟨cur, ?_, ?_, hmax⟩
      · rw [hsplit]
        exact List.mem_append_right _ (List.mem_cons_self cur post)
      · rw [hm, heq]
  obtain ⟨e, he, hsim, hmax⟩ := hchar
  have hb := abs_le.mp (abs_cosSim_le_one q e.embedding (hlen e he).symm)
  refine ⟨_, hresp, ⟨e, he, ?_, hmax⟩, ?_, ?_⟩
  · show m.similarity * 100 = 100 * cosSim q e.embedding
    rw [hsim]
    ring
  · show -100 ≤ m.similarity * 100
    rw [hsim]
    linarith [hb.1]
  · show m.similarity * 100 ≤ 100
    rw [hsim]
    linarith [hb.2]

theorem handler_scale_witness :
    Except.map IdentifyResponse.similarity
      (handler [(1 : ℝ)] [⟨"card_A", "a.png", [(1 : ℝ)]⟩]) = Except.ok 100 := by
  obtain ⟨resp, hresp, ⟨e, he, hsim, -⟩, -, -⟩ :=
    handler_scale [(1 : ℝ)] [⟨"card_A", "a.png", [(1 : ℝ)]⟩]
      (by intro e he; rw [List.mem_singleton] at he; subst he; rfl)
      (by simp)
  rw [List.mem_singleton] at he
  subst he
  rw [hresp]
  show Except.ok resp.similarity = Except.ok 100
  rw [hsim]
  show Except.ok ((100 : ℝ) * cosSim [(1 : ℝ)] [(1 : ℝ)]) = Except.ok 100
  rw [cosSim_one_one]
  norm_num

end IdentifyCard
